import Mathlib

/-!
Verification of the discrete-event (s, S) inventory simulation engine
(`InventorySimulation` in `app1.py`).

Shallow embedding conventions:
* Python floats are modelled as rationals `ℚ`; the value `float('inf')` used
  for event timestamps is modelled by the two-constructor type `ETime`
  (`fin q` for a finite timestamp, `inf` for `float('inf')`).
* Python integers (`x`, `y`, demand sizes) are modelled as `ℤ`.
* The globally seeded NumPy stream (`np.random.seed(params['seed'])` followed
  by alternating `np.random.uniform(0,1)` / `np.random.poisson` calls) is
  modelled by two draw streams indexed from 0: `us : ℕ → ℚ` giving the
  uniform variates consumed by `_generate_next_arrival`, and `poi : ℕ → ℕ`
  giving the raw Poisson variates consumed by `_generate_demand_size`.
  Because `run()` reseeds at its start, every invocation with the same seed
  consumes the same streams from index 0; fixing `us`/`poi` across two
  invocations models "identical parameters including the seed".
* `np.log` on the drawn uniforms is an opaque real-valued function; it is
  modelled by an arbitrary parameter `lg : ℚ → ℚ`, except at `u = 0`, where
  `np.log 0 = -inf` makes `-(1/lam) * np.log 0 = +inf`; that case is
  modelled explicitly (see `generateNextArrival`).
* The `while True` loop is run with explicit fuel; all properties proved
  below hold for every fuel value, hence for the completed run.
-/

/-- Model of a float-valued event timestamp: either a finite time or
`float('inf')` (used for `t_O` when no order is outstanding, and for `t_C`
after a degenerate uniform draw). -/
inductive ETime where
  | fin (q : ℚ)
  | inf
deriving DecidableEq, Repr

/-- Float comparison `a <= b` on timestamps (no NaN arises in the engine). -/
def ETime.le : ETime → ETime → Bool
  | .fin a, .fin b => decide (a ≤ b)
  | .fin _, .inf => true
  | .inf, .fin _ => false
  | .inf, .inf => true

/-- Float `min` on timestamps, as used for `next_event_time = min(t_C, t_O)`. -/
def ETime.emin : ETime → ETime → ETime
  | .fin a, .fin b => .fin (min a b)
  | .fin a, .inf => .fin a
  | .inf, b => b

/-- Whether a timestamp is within the (finite) horizon: `a <= T`.  The loop
exits when `next_event_time > T`, i.e. when this is `false`. -/
def ETime.leT : ETime → ℚ → Bool
  | .fin a, q => decide (a ≤ q)
  | .inf, _ => false

/-- Float addition `q + d` of a finite time and an interarrival that may be
infinite (`t + inf = inf`). -/
def ETime.add (q : ℚ) : ETime → ETime
  | .fin d => .fin (q + d)
  | .inf => .inf

/-- The simulation parameters (`params` dict read in `__init__`):
reorder point `s`, target level `S`, horizon `T`, arrival rate `lam`,
lead time `L`, unit price `r`, fixed order cost `K`, unit variable cost `c`,
holding-cost rate `h`, and the random seed. (`avg_demand` only parametrizes
the abstracted Poisson stream.) -/
structure Params where
  s : ℤ
  S : ℤ
  T : ℚ
  lam : ℚ
  L : ℚ
  r : ℚ
  K : ℚ
  c : ℚ
  h : ℚ
  seed : ℤ
deriving DecidableEq, Repr

/-- Validity of a parameter record, per the interface contract:
`S > s ≥ 0` and `T, lam, L, h > 0`. -/
def Params.valid (p : Params) : Prop :=
  0 ≤ p.s ∧ p.s < p.S ∧ 0 < p.T ∧ 0 < p.lam ∧ 0 < p.L ∧ 0 < p.h

instance (p : Params) : Decidable p.valid := by
  unfold Params.valid; infer_instance

/-- The event classification strings written into the log
(`'初始化'`, `'顾客购买'`, `'缺货损失'`, `'顾客购买并订货'`, `'订单送达'`),
as a closed enumeration. -/
inductive EventKind where
  | start
  | purchase
  | stockout
  | purchaseReorder
  | orderArrival
deriving DecidableEq, Repr

/-- One row appended to `self.history`: time, on-hand inventory `现有库存`,
in-transit quantity `在途订单`, event kind `事件类型`, running profit
`累计利润`, net inventory delta `变动量`, and the optional stockout
annotation `备注` carrying (demand `D`, fulfilled `w`, lost). -/
structure Entry where
  time : ℚ
  onHand : ℤ
  inTransit : ℤ
  kind : EventKind
  profit : ℚ
  delta : ℤ
  note : Option (ℤ × ℤ × ℤ)
deriving DecidableEq, Repr

/-- The numeric mutable state of the engine during `run()`: clock `t`,
on-hand `x`, in-transit `y`, accumulators `C`, `H`, `R`, the two pending
event timestamps `t_C` and `t_O`, and the positions `iA`, `iD` of the next
unconsumed uniform / Poisson draw in the seeded streams. -/
structure Core where
  t : ℚ
  x : ℤ
  y : ℤ
  C : ℚ
  H : ℚ
  R : ℚ
  tC : ETime
  tO : ETime
  iA : ℕ
  iD : ℕ
deriving DecidableEq, Repr

/-- Model of `_generate_next_arrival`: draws `U = np.random.uniform(0, 1)` (a value in
the half-open interval `[0, 1)`) and returns `-(1.0 / lam) * np.log(U)`.
For `u = 0`, NumPy yields `np.log(0) = -inf`, so the interarrival is `+inf`;
for `u ≠ 0` the result is the finite value `-(1/lam) * log u`, with the
float logarithm abstracted as `lg`. -/
def generateNextArrival (lam : ℚ) (lg : ℚ → ℚ) (u : ℚ) : ETime :=
  if u = 0 then ETime.inf else ETime.fin (-(1 / lam) * lg u)

/-- Model of `_generate_demand_size`: draws `d = np.random.poisson(avg_demand)` and
returns `max(1, d)`. -/
def generateDemandSize (d : ℕ) : ℕ :=
  max 1 d

/-- Model of `_calculate_ordering_cost`: `0` if `quantity <= 0`, else
`K + c_unit * quantity`. -/
def calculateOrderingCost (p : Params) (quantity : ℤ) : ℚ :=
  if quantity ≤ 0 then 0 else p.K + p.c * (quantity : ℚ)

/-- The customer-arrival handler (the `t_C <= t_O` branch of the loop body),
given the finite arrival time `tc` with `c.tC = ETime.fin tc`.  Returns the
updated core state and the log entry appended by this event. -/
def customerStep (p : Params) (lg : ℚ → ℚ) (us : ℕ → ℚ) (poi : ℕ → ℕ)
    (c : Core) (tc : ℚ) : Core × Entry :=
  let H1 := c.H + p.h * (c.x : ℚ) * (tc - c.t)
  let D : ℤ := (generateDemandSize (poi c.iD) : ℤ)
  let w : ℤ := min D c.x
  let lost : ℤ := D - w
  let R1 := c.R + (w : ℚ) * p.r
  let x1 := c.x - w
  let y1 : ℤ := if x1 < p.s ∧ c.y = 0 then p.S - x1 else c.y
  let tO1 : ETime := if x1 < p.s ∧ c.y = 0 then ETime.fin (tc + p.L) else c.tO
  let k : EventKind :=
    if 0 < lost then EventKind.stockout
    else if x1 < p.s ∧ c.y = 0 then EventKind.purchaseReorder
    else EventKind.purchase
  ({ t := tc, x := x1, y := y1, C := c.C, H := H1, R := R1,
     tC := ETime.add tc (generateNextArrival p.lam lg (us c.iA)),
     tO := tO1, iA := c.iA + 1, iD := c.iD + 1 },
   { time := tc, onHand := x1, inTransit := y1, kind := k,
     profit := R1 - c.C - H1, delta := -w,
     note := if 0 < lost then some (D, w, lost) else none })

/-- The order-arrival handler (the `else` branch of the loop body), given the
finite delivery time `tb` with `c.tO = ETime.fin tb`. -/
def orderStep (p : Params) (c : Core) (tb : ℚ) : Core × Entry :=
  let H1 := c.H + p.h * (c.x : ℚ) * (tb - c.t)
  let C1 := c.C + calculateOrderingCost p c.y
  let x1 := c.x + c.y
  ({ t := tb, x := x1, y := 0, C := C1, H := H1, R := c.R,
     tC := c.tC, tO := ETime.inf, iA := c.iA, iD := c.iD },
   { time := tb, onHand := x1, inTransit := 0, kind := EventKind.orderArrival,
     profit := c.R - C1 - H1, delta := c.y, note := none })

/-- One iteration of the `while True` loop: `none` when
`min(t_C, t_O) > T` breaks the loop, otherwise the dispatched handler's
result.  The two `ETime.inf` match arms are unreachable (an infinite
timestamp can never be selected while `min(t_C, t_O) ≤ T` holds). -/
def stepCore (p : Params) (lg : ℚ → ℚ) (us : ℕ → ℚ) (poi : ℕ → ℕ)
    (c : Core) : Option (Core × Entry) :=
  if ETime.leT (ETime.emin c.tC c.tO) p.T then
    if ETime.le c.tC c.tO then
      match c.tC with
      | .fin tc => some (customerStep p lg us poi c tc)
      | .inf => none
    else
      match c.tO with
      | .fin tb => some (orderStep p c tb)
      | .inf => none
  else none

/-- The event loop with explicit fuel, accumulating appended log entries. -/
def loopAux (p : Params) (lg : ℚ → ℚ) (us : ℕ → ℚ) (poi : ℕ → ℕ) :
    ℕ → Core → List Entry → Core × List Entry
  | 0, c, acc => (c, acc)
  | Nat.succ n, c, acc =>
    match stepCore p lg us poi c with
    | none => (c, acc)
    | some (c1, e) => loopAux p lg us poi n c1 (acc ++ [e])

/-- The state set up at the top of `run()` after reseeding: `t = 0`,
`x = S`, `y = 0`, `C = H = R = 0`, `t_C` drawn from the first uniform,
`t_O = inf`; draw positions advance past the consumed first uniform. -/
def initCore (p : Params) (lg : ℚ → ℚ) (us : ℕ → ℚ) : Core :=
  { t := 0, x := p.S, y := 0, C := 0, H := 0, R := 0,
    tC := generateNextArrival p.lam lg (us 0), tO := ETime.inf,
    iA := 1, iD := 0 }

/-- The initialization row appended to `self.history` before the loop. -/
def initEntry (p : Params) : Entry :=
  { time := 0, onHand := p.S, inTransit := 0, kind := EventKind.start,
    profit := 0, delta := 0, note := none }

/-- The summary dict returned by `run()`. -/
structure Summary where
  final_profit : ℚ
  total_revenue : ℚ
  total_ordering_cost : ℚ
  total_holding_cost : ℚ
deriving DecidableEq, Repr

/-- Model of `run()`: reseeds (modelled by restarting both streams at index 0),
resets the numeric state, appends the initialization entry to the engine's
existing `self.history` (`hist`, which `run()` does NOT clear — it is
initialized only in `__init__`), executes the event loop, accrues the
terminal holding cost for `[t, T]`, and returns the full log together with
the summary.  The returned log is exactly the engine's `self.history` after
the call, so a subsequent `run()` on the same instance receives it as its
`hist`. -/
def runEngine (p : Params) (lg : ℚ → ℚ) (us : ℕ → ℚ) (poi : ℕ → ℕ)
    (fuel : ℕ) (hist : List Entry) : List Entry × Summary :=
  let res := loopAux p lg us poi fuel (initCore p lg us) []
  let Hfin := res.1.H + p.h * (res.1.x : ℚ) * (p.T - res.1.t)
  (hist ++ (initEntry p :: res.2),
   { final_profit := res.1.R - res.1.C - Hfin,
     total_revenue := res.1.R,
     total_ordering_cost := res.1.C,
     total_holding_cost := Hfin })

/-! ### Concrete fixtures used by witnesses and counterexamples

The streams below stand for the post-seed NumPy draws: `lgK` models
`np.log` returning `-1` on each drawn uniform (so each interarrival is
`1/lam`), `usK` is a stream of nonzero uniforms, `usZ` a stream whose first
uniform draw is exactly `0`, and the `poi*` streams give Poisson variates. -/

def lgK : ℚ → ℚ := fun _ => -1

def usK : ℕ → ℚ := fun _ => 1

def usZ : ℕ → ℚ := fun _ => 0

def poiK : ℕ → ℕ := fun _ => 2

def poiB : ℕ → ℕ := fun _ => 4

def poiD : ℕ → ℕ := fun _ => 5

/-- Valid parameters used for whole-run witnesses. -/
def pA : Params :=
  { s := 1, S := 3, T := 10, lam := 1, L := 2, r := 50, K := 100, c := 20,
    h := 1, seed := 42 }

/-- Valid parameters used for single-step witnesses. -/
def pB : Params :=
  { s := 2, S := 5, T := 10, lam := 1, L := 2, r := 50, K := 100, c := 20,
    h := 1, seed := 0 }

/-- A state just before a customer arrival that triggers a reorder:
on-hand `5`, demand `4` pending, no outstanding order. -/
def cB0 : Core :=
  { t := 0, x := 5, y := 0, C := 0, H := 0, R := 0, tC := .fin 1,
    tO := .inf, iA := 1, iD := 0 }

/-- The state after processing `cB0` with demand `4` under `pB`:
the sale leaves `x = 1 < s = 2`, so an order of `4` is placed. -/
def cB1 : Core :=
  { t := 1, x := 1, y := 4, C := 0, H := 5, R := 200, tC := .fin 2,
    tO := .fin 3, iA := 2, iD := 1 }

/-- The log entry appended for the `cB0` event. -/
def eB1 : Entry :=
  { time := 1, onHand := 1, inTransit := 4, kind := EventKind.purchaseReorder,
    profit := 195, delta := -4, note := none }

/-- A state just before an order-arrival event with `y = 10` in transit. -/
def cC0 : Core :=
  { t := 0, x := 0, y := 10, C := 0, H := 0, R := 0, tC := .fin 5,
    tO := .fin 2, iA := 1, iD := 0 }

/-- The state after the delivery of the `10` units under `pB`:
`C` grows by `K + c * 10 = 300`. -/
def cC1 : Core :=
  { t := 2, x := 10, y := 0, C := 300, H := 0, R := 0, tC := .fin 5,
    tO := .inf, iA := 1, iD := 0 }

/-- The log entry appended for the `cC0` delivery. -/
def eC1 : Entry :=
  { time := 2, onHand := 10, inTransit := 0, kind := EventKind.orderArrival,
    profit := -300, delta := 10, note := none }

/-- A state just before a customer arrival that simultaneously causes a
stockout and triggers a reorder: on-hand `2`, demand `5` pending. -/
def cD0 : Core :=
  { t := 0, x := 2, y := 0, C := 0, H := 0, R := 0, tC := .fin 1,
    tO := .inf, iA := 1, iD := 0 }

/-- The state after processing `cD0` with demand `5` under `pB`:
`w = 2`, `lost = 3`, `x = 0 < s = 2`, so an order of `5` is placed. -/
def cD1 : Core :=
  { t := 1, x := 0, y := 5, C := 0, H := 2, R := 100, tC := .fin 2,
    tO := .fin 3, iA := 2, iD := 1 }

/-- The log entry appended for the `cD0` event: labelled `'缺货损失'`
(stockout) only, even though a reorder was also triggered. -/
def eD1 : Entry :=
  { time := 1, onHand := 0, inTransit := 5, kind := EventKind.stockout,
    profit := 98, delta := -2, note := some (5, 2, 3) }

/-! ### Structural helper lemmas -/

/-- Every successful loop iteration is either a customer-arrival event at
the finite time `t_C` or an order-arrival event at the finite time `t_O`. -/
theorem stepCore_eq_cases {p : Params} {lg : ℚ → ℚ} {us : ℕ → ℚ}
    {poi : ℕ → ℕ} {c c1 : Core} {e : Entry}
    (h : stepCore p lg us poi c = some (c1, e)) :
    (∃ tc : ℚ, c.tC = ETime.fin tc ∧ customerStep p lg us poi c tc = (c1, e)) ∨
    (∃ tb : ℚ, c.tO = ETime.fin tb ∧ orderStep p c tb = (c1, e)) := by
  unfold stepCore at h
  cases hC : c.tC with
  | fin tc =>
    cases hO : c.tO with
    | fin tb =>
      rw [hC, hO] at h
      simp only [ETime.emin, ETime.leT, ETime.le] at h
      by_cases h1 : min tc tb ≤ p.T
      · simp only [h1, decide_True, if_true] at h
        by_cases h2 : tc ≤ tb
        · simp only [h2, decide_True, if_true] at h
          exact Or.inl ⟨tc, rfl, Option.some.inj h⟩
        · simp only [h2, decide_False, if_false] at h
          exact Or.inr ⟨tb, rfl, Option.some.inj h⟩
      · simp [h1] at h
    | inf =>
      rw [hC, hO] at h
      simp only [ETime.emin, ETime.leT, ETime.le, if_true] at h
      by_cases h1 : tc ≤ p.T
      · simp only [h1, decide_True, if_true] at h
        exact Or.inl ⟨tc, rfl, Option.some.inj h⟩
      · simp [h1] at h
  | inf =>
    cases hO : c.tO with
    | fin tb =>
      rw [hC, hO] at h
      simp only [ETime.emin, ETime.leT, ETime.le, if_false] at h
      by_cases h1 : tb ≤ p.T
      · simp only [h1, decide_True, if_true] at h
        exact Or.inr ⟨tb, rfl, Option.some.inj h⟩
      · simp [h1] at h
    | inf =>
      rw [hC, hO] at h
      simp [ETime.emin, ETime.leT] at h

/-- The floored demand size is always at least one unit. -/
theorem one_le_demand (poi : ℕ → ℕ) (i : ℕ) :
    (1 : ℤ) ≤ (generateDemandSize (poi i) : ℤ) := by
  have h1 : 1 ≤ generateDemandSize (poi i) := le_max_left 1 (poi i)
  exact_mod_cast h1

/-- The log entry written by the customer-arrival handler records exactly
the post-event on-hand and in-transit quantities of the new state. -/
theorem customerStep_mirror (p : Params) (lg : ℚ → ℚ) (us : ℕ → ℚ)
    (poi : ℕ → ℕ) (c : Core) (tc : ℚ) :
    (customerStep p lg us poi c tc).2.onHand = (customerStep p lg us poi c tc).1.x ∧
      (customerStep p lg us poi c tc).2.inTransit = (customerStep p lg us poi c tc).1.y :=
  ⟨rfl, rfl⟩

/-- The log entry written by the order-arrival handler records exactly the
post-event on-hand and in-transit quantities of the new state. -/
theorem orderStep_mirror (p : Params) (c : Core) (tb : ℚ) :
    (orderStep p c tb).2.onHand = (orderStep p c tb).1.x ∧
      (orderStep p c tb).2.inTransit = (orderStep p c tb).1.y :=
  ⟨rfl, rfl⟩

/-- Nominal-inventory invariant: `x` and `y` are non-negative and together
never exceed the target level `S`. -/
def InvXY (p : Params) (c : Core) : Prop :=
  0 ≤ c.x ∧ 0 ≤ c.y ∧ c.x + c.y ≤ p.S

/-- One loop iteration preserves `InvXY`, and the entry it appends records
non-negative quantities summing to at most `S` (requires `s ≤ S`). -/
theorem stepCore_invXY {p : Params} {lg : ℚ → ℚ} {us : ℕ → ℚ} {poi : ℕ → ℕ}
    {c c1 : Core} {e : Entry} (hsS : p.s ≤ p.S)
    (h : stepCore p lg us poi c = some (c1, e)) (hc : InvXY p c) :
    InvXY p c1 ∧ (0 ≤ e.onHand ∧ 0 ≤ e.inTransit ∧ e.onHand + e.inTransit ≤ p.S) := by
  obtain ⟨hx, hy, hxy⟩ := hc
  rcases stepCore_eq_cases h with ⟨tc, _, hcs⟩ | ⟨tb, _, hos⟩
  · have hd := one_le_demand poi c.iD
    have hc1 : c1 = (customerStep p lg us poi c tc).1 := by rw [hcs]
    have he : e = (customerStep p lg us poi c tc).2 := by rw [hcs]
    rw [hc1, he]
    simp only [customerStep, InvXY]
    split_ifs with htrig
    · obtain ⟨ht1, _⟩ := htrig
      refine ⟨⟨?_, ?_, ?_⟩, ?_, ?_, ?_⟩ <;> omega
    · refine ⟨⟨?_, ?_, ?_⟩, ?_, ?_, ?_⟩ <;> omega
  · have hc1 : c1 = (orderStep p c tb).1 := by rw [hos]
    have he : e = (orderStep p c tb).2 := by rw [hos]
    rw [hc1, he]
    simp only [orderStep, InvXY]
    refine ⟨⟨?_, ?_, ?_⟩, ?_, ?_, ?_⟩ <;> omega

/-- Invariant for runs with `s = 0`: no order is ever outstanding and
on-hand inventory stays non-negative. -/
def InvNoOrder (c : Core) : Prop :=
  c.y = 0 ∧ c.tO = ETime.inf ∧ 0 ≤ c.x

/-- With `s = 0`, one loop iteration preserves `InvNoOrder`, and the entry
it appends shows no in-transit stock and is neither a reorder-trigger nor an
order-arrival event. -/
theorem stepCore_noOrder {p : Params} {lg : ℚ → ℚ} {us : ℕ → ℚ} {poi : ℕ → ℕ}
    {c c1 : Core} {e : Entry} (hs : p.s = 0)
    (h : stepCore p lg us poi c = some (c1, e)) (hc : InvNoOrder c) :
    InvNoOrder c1 ∧ (e.inTransit = 0 ∧ e.kind ≠ EventKind.purchaseReorder ∧
      e.kind ≠ EventKind.orderArrival) := by
  obtain ⟨hy, hO, hx⟩ := hc
  rcases stepCore_eq_cases h with ⟨tc, _, hcs⟩ | ⟨tb, hOt, _⟩
  · have hd := one_le_demand poi c.iD
    have hc1 : c1 = (customerStep p lg us poi c tc).1 := by rw [hcs]
    have he : e = (customerStep p lg us poi c tc).2 := by rw [hcs]
    rw [hc1, he]
    simp only [customerStep, InvNoOrder]
    split_ifs with h1 h2 h3 <;>
      first
        | (exfalso; omega)
        | (exact ⟨⟨hy, hO, by omega⟩, hy, by simp, by simp⟩)
  · rw [hO] at hOt
    simp at hOt

/-- The event loop preserves any invariant `P` on the core state that every
iteration preserves, and every entry it appends satisfies the associated
entry property `Q`. -/
theorem loopAux_inv (p : Params) (lg : ℚ → ℚ) (us : ℕ → ℚ) (poi : ℕ → ℕ)
    (P : Core → Prop) (Q : Entry → Prop)
    (hstep : ∀ c c1 e, P c → stepCore p lg us poi c = some (c1, e) → P c1 ∧ Q e) :
    ∀ (n : ℕ) (c : Core) (acc : List Entry), P c → (∀ a ∈ acc, Q a) →
      P (loopAux p lg us poi n c acc).1 ∧
        ∀ a ∈ (loopAux p lg us poi n c acc).2, Q a := by
  intro n
  induction n with
  | zero => intro c acc hc hacc; exact ⟨hc, hacc⟩
  | succ n ih =>
    intro c acc hc hacc
    cases hst : stepCore p lg us poi c with
    | none => simp only [loopAux, hst]; exact ⟨hc, hacc⟩
    | some pr =>
      obtain ⟨c1, e⟩ := pr
      have h2 := hstep c c1 e hc hst
      simp only [loopAux, hst]
      refine ih c1 (acc ++ [e]) h2.1 ?_
      intro a ha
      rcases List.mem_append.mp ha with h3 | h3
      · exact hacc a h3
      · rw [List.mem_singleton] at h3
        subst h3
        exact h2.2

/-- When the very first iteration already exits the loop, the loop returns
its inputs unchanged, for every fuel value. -/
theorem loopAux_stuck {p : Params} {lg : ℚ → ℚ} {us : ℕ → ℚ} {poi : ℕ → ℕ}
    {c : Core} (h : stepCore p lg us poi c = none) (n : ℕ) (acc : List Entry) :
    loopAux p lg us poi n c acc = (c, acc) := by
  cases n with
  | zero => rfl
  | succ n => simp only [loopAux, h]

/-- Uniform stream whose draws correspond to a first interarrival of `11`
time units (beyond the horizon `T = 10` of `pA`), so that the run completes
with no events: models `np.log(u) = -11` for the drawn uniforms. -/
def lgBig : ℚ → ℚ := fun _ => -11

/-! ### Claims -/

/-- C1: for every run, the summary returned by `run()` satisfies
`final_profit = total_revenue - total_ordering_cost - total_holding_cost`
exactly, the three totals being the final accumulator values `R`, `C`, `H`
after the terminal holding-cost accrual for `[t, T]`. -/
theorem run_conservation (p : Params) (lg : ℚ → ℚ) (us : ℕ → ℚ)
    (poi : ℕ → ℕ) (fuel : ℕ) (hist : List Entry) :
    (runEngine p lg us poi fuel hist).2.final_profit =
      (runEngine p lg us poi fuel hist).2.total_revenue -
        (runEngine p lg us poi fuel hist).2.total_ordering_cost -
        (runEngine p lg us poi fuel hist).2.total_holding_cost :=
  rfl

/-- C2 counterexample: two `run()` invocations with identical parameters
(including the seed, modelled by identical draw streams) on the SAME engine
instance in sequence do not produce identical logs: `run()` never clears
`self.history`, so the second invocation's log contains the first run's
entries.  Concretely, with the first arrival falling beyond the horizon the
first log is `[initEntry pA]` while the second is
`[initEntry pA, initEntry pA]`. -/
theorem run_determinism_counterexample :
    (runEngine pA lgBig usK poiK 1 ((runEngine pA lgBig usK poiK 1 []).1)).1 ≠
      (runEngine pA lgBig usK poiK 1 []).1 := by
  have h1 : (runEngine pA lgBig usK poiK 1 []).1 = [initEntry pA] := by
    norm_num [runEngine, loopAux, stepCore, initCore, generateNextArrival,
      ETime.emin, ETime.leT, lgBig, usK, pA]
  rw [h1]
  have h2 : (runEngine pA lgBig usK poiK 1 [initEntry pA]).1 =
      [initEntry pA, initEntry pA] := by
    norm_num [runEngine, loopAux, stepCore, initCore, generateNextArrival,
      ETime.emin, ETime.leT, lgBig, usK, pA]
  rw [h2]
  simp

/-- C2 amended: two `run()` invocations with identical parameters (including
the seed) produce identical summaries unconditionally, and identical logs
exactly when they start from the same prior `self.history`; an invocation
whose engine instance already holds `hist` returns `hist` followed by the
same fresh entries a fresh instance would produce (the summary never depends
on the carried-over history). -/
theorem run_history_carryover (p : Params) (lg : ℚ → ℚ) (us : ℕ → ℚ)
    (poi : ℕ → ℕ) (fuel : ℕ) (hist : List Entry) :
    (runEngine p lg us poi fuel hist).2 = (runEngine p lg us poi fuel []).2 ∧
      (runEngine p lg us poi fuel hist).1 =
        hist ++ (runEngine p lg us poi fuel []).1 := by
  exact ⟨rfl, by simp [runEngine]⟩

/-- C3: whenever a reorder fires (the in-transit quantity changes from `0`
to nonzero during one loop iteration), the handler sets `y = S - x` and
`t_O = t + L`, so on-hand plus in-transit inventory equals exactly `S`
immediately after the order is placed. -/
theorem reorder_restores_nominal (p : Params) (lg : ℚ → ℚ) (us : ℕ → ℚ)
    (poi : ℕ → ℕ) (c c1 : Core) (e : Entry)
    (hstep : stepCore p lg us poi c = some (c1, e))
    (hy0 : c.y = 0) (hy1 : c1.y ≠ 0) :
    c1.y = p.S - c1.x ∧ c1.tO = ETime.fin (c1.t + p.L) ∧ c1.x + c1.y = p.S := by
  rcases stepCore_eq_cases hstep with ⟨tc, _, hcs⟩ | ⟨tb, _, hos⟩
  · have hc1 : c1 = (customerStep p lg us poi c tc).1 := by rw [hcs]
    rw [hc1] at hy1 ⊢
    simp only [customerStep] at hy1 ⊢
    split_ifs at hy1 ⊢ with htrig
    · exact ⟨rfl, rfl, by omega⟩
    · exact absurd hy0 hy1
  · have hc1 : c1 = (orderStep p c tb).1 := by rw [hos]
    rw [hc1] at hy1
    simp [orderStep] at hy1

/-- C3 witness: at the concrete customer arrival `cB0` under `pB` a reorder
fires, and the resulting state `cB1` restores nominal inventory to `S`. -/
theorem reorder_restores_nominal_witness :
    cB1.y = pB.S - cB1.x ∧ cB1.tO = ETime.fin (cB1.t + pB.L) ∧
      cB1.x + cB1.y = pB.S :=
  reorder_restores_nominal pB lgK usK poiB cB0 cB1 eB1
    (by norm_num [stepCore, customerStep, cB0, cB1, eB1, pB, lgK, usK, poiB,
      generateNextArrival, generateDemandSize, ETime.emin, ETime.leT,
      ETime.le, ETime.add])
    (by norm_num [cB0]) (by norm_num [cB1])

/-- C5: a new order is placed (the in-transit quantity changes to a nonzero
value) only when `y = 0` at the moment of the reorder check: the engine
never places a new order while another is outstanding. -/
theorem order_placed_requires_no_outstanding (p : Params) (lg : ℚ → ℚ)
    (us : ℕ → ℚ) (poi : ℕ → ℕ) (c c1 : Core) (e : Entry)
    (hstep : stepCore p lg us poi c = some (c1, e))
    (hchg : c1.y ≠ c.y) (hnz : c1.y ≠ 0) : c.y = 0 := by
  rcases stepCore_eq_cases hstep with ⟨tc, _, hcs⟩ | ⟨tb, _, hos⟩
  · have hc1 : c1 = (customerStep p lg us poi c tc).1 := by rw [hcs]
    rw [hc1] at hchg hnz
    simp only [customerStep] at hchg hnz
    split_ifs at hchg hnz with htrig
    · exact htrig.2
    · exact absurd rfl hchg
  · have hc1 : c1 = (orderStep p c tb).1 := by rw [hos]
    rw [hc1] at hnz
    simp [orderStep] at hnz

/-- C5 witness: the concrete order placement at `cB0` indeed happens with no
outstanding order. -/
theorem order_placed_requires_no_outstanding_witness : cB0.y = 0 :=
  order_placed_requires_no_outstanding pB lgK usK poiB cB0 cB1 eB1
    (by norm_num [stepCore, customerStep, cB0, cB1, eB1, pB, lgK, usK, poiB,
      generateNextArrival, generateDemandSize, ETime.emin, ETime.leT,
      ETime.le, ETime.add])
    (by norm_num [cB0, cB1]) (by norm_num [cB1])

/-- C6: when an order-arrival event is processed with in-transit quantity
`y > 0`, the cumulative ordering cost grows by exactly `K + c * y`, on-hand
inventory grows by exactly `y`, and then `y` is reset to `0` and `t_O` to
infinity. -/
theorem order_arrival_accounting (p : Params) (lg : ℚ → ℚ) (us : ℕ → ℚ)
    (poi : ℕ → ℕ) (c c1 : Core) (e : Entry)
    (hstep : stepCore p lg us poi c = some (c1, e))
    (hkind : e.kind = EventKind.orderArrival) (hy : 0 < c.y) :
    c1.C = c.C + (p.K + p.c * (c.y : ℚ)) ∧ c1.x = c.x + c.y ∧ c1.y = 0 ∧
      c1.tO = ETime.inf := by
  rcases stepCore_eq_cases hstep with ⟨tc, _, hcs⟩ | ⟨tb, _, hos⟩
  · have he : e = (customerStep p lg us poi c tc).2 := by rw [hcs]
    rw [he] at hkind
    simp only [customerStep] at hkind
    split_ifs at hkind
  · have hc1 : c1 = (orderStep p c tb).1 := by rw [hos]
    rw [hc1]
    simp only [orderStep, calculateOrderingCost]
    rw [if_neg (by omega : ¬ c.y ≤ 0)]
    simp

/-- C6 witness: the concrete delivery of `y = 10` units under
`K = 100, c = 20` (parameters `pB`) increases `C` by exactly `300`. -/
theorem order_arrival_accounting_witness :
    (cC1.C = cC0.C + (pB.K + pB.c * (cC0.y : ℚ)) ∧ cC1.x = cC0.x + cC0.y ∧
      cC1.y = 0 ∧ cC1.tO = ETime.inf) ∧ cC1.C = 300 ∧ cC0.C = 0 :=
  ⟨order_arrival_accounting pB lgK usK poiK cC0 cC1 eC1
    (by norm_num [stepCore, orderStep, cC0, cC1, eC1, pB, lgK, usK, poiK,
      calculateOrderingCost, ETime.emin, ETime.leT, ETime.le])
    (by norm_num [eC1]) (by norm_num [cC0]),
   by norm_num [cC1], by norm_num [cC0]⟩

/-- C4: at every logged state of every run over valid parameters, on-hand
inventory satisfies `x ≥ 0` and the in-transit quantity satisfies `y ≥ 0`
(demand exceeding on-hand inventory is lost and never drives `x` below
zero). -/
theorem log_nonneg (p : Params) (lg : ℚ → ℚ) (us : ℕ → ℚ) (poi : ℕ → ℕ)
    (fuel : ℕ) (hv : p.valid) :
    ∀ e ∈ (runEngine p lg us poi fuel []).1, 0 ≤ e.onHand ∧ 0 ≤ e.inTransit := by
  obtain ⟨hs0, hsS, _⟩ := hv
  have hinit : InvXY p (initCore p lg us) := by
    refine ⟨?_, ?_, ?_⟩ <;> simp [initCore] <;> omega
  have key := loopAux_inv p lg us poi (InvXY p)
    (fun a => 0 ≤ a.onHand ∧ 0 ≤ a.inTransit ∧ a.onHand + a.inTransit ≤ p.S)
    (fun c c1 e hc hst => stepCore_invXY (le_of_lt hsS) hst hc)
    fuel (initCore p lg us) [] hinit (by simp)
  intro e he
  simp only [runEngine, List.nil_append, List.mem_cons] at he
  rcases he with rfl | he
  · constructor <;> simp [initEntry] <;> omega
  · exact ⟨(key.2 e he).1, (key.2 e he).2.1⟩

/-- C4 witness: the concrete run under `pA` has only non-negative on-hand
and in-transit quantities in its log. -/
theorem log_nonneg_witness :
    pA.valid ∧ ∀ e ∈ (runEngine pA lgK usK poiK 3 []).1,
      0 ≤ e.onHand ∧ 0 ≤ e.inTransit :=
  ⟨by norm_num [pA, Params.valid],
   log_nonneg pA lgK usK poiK 3 (by norm_num [pA, Params.valid])⟩

/-- C10: at every logged state of every run over valid parameters, nominal
inventory never exceeds the target level: `x + y ≤ S`. -/
theorem nominal_le_target (p : Params) (lg : ℚ → ℚ) (us : ℕ → ℚ)
    (poi : ℕ → ℕ) (fuel : ℕ) (hv : p.valid) :
    ∀ e ∈ (runEngine p lg us poi fuel []).1, e.onHand + e.inTransit ≤ p.S := by
  obtain ⟨hs0, hsS, _⟩ := hv
  have hinit : InvXY p (initCore p lg us) := by
    refine ⟨?_, ?_, ?_⟩ <;> simp [initCore] <;> omega
  have key := loopAux_inv p lg us poi (InvXY p)
    (fun a => 0 ≤ a.onHand ∧ 0 ≤ a.inTransit ∧ a.onHand + a.inTransit ≤ p.S)
    (fun c c1 e hc hst => stepCore_invXY (le_of_lt hsS) hst hc)
    fuel (initCore p lg us) [] hinit (by simp)
  intro e he
  simp only [runEngine, List.nil_append, List.mem_cons] at he
  rcases he with rfl | he
  · simp [initEntry]
  · exact (key.2 e he).2.2

/-- C10 witness: the concrete run under `pA` keeps `x + y ≤ S` at every
logged state. -/
theorem nominal_le_target_witness :
    pA.valid ∧ ∀ e ∈ (runEngine pA lgK usK poiK 4 []).1,
      e.onHand + e.inTransit ≤ pA.S :=
  ⟨by norm_num [pA, Params.valid],
   nominal_le_target pA lgK usK poiK 4 (by norm_num [pA, Params.valid])⟩

/-- C7: in every run with reorder point `s = 0` (and non-negative target
level), no reorder ever fires: every logged state has zero in-transit stock
and no entry is a reorder-trigger or an order-arrival event. -/
theorem no_reorder_when_s_zero (p : Params) (lg : ℚ → ℚ) (us : ℕ → ℚ)
    (poi : ℕ → ℕ) (fuel : ℕ) (hs : p.s = 0) (hS : 0 ≤ p.S) :
    ∀ e ∈ (runEngine p lg us poi fuel []).1,
      e.inTransit = 0 ∧ e.kind ≠ EventKind.purchaseReorder ∧
        e.kind ≠ EventKind.orderArrival := by
  have hinit : InvNoOrder (initCore p lg us) := ⟨rfl, rfl, by simp [initCore, hS]⟩
  have key := loopAux_inv p lg us poi InvNoOrder
    (fun a => a.inTransit = 0 ∧ a.kind ≠ EventKind.purchaseReorder ∧
      a.kind ≠ EventKind.orderArrival)
    (fun c c1 e hc hst => stepCore_noOrder hs hst hc)
    fuel (initCore p lg us) [] hinit (by simp)
  intro e he
  simp only [runEngine, List.nil_append, List.mem_cons] at he
  rcases he with rfl | he
  · exact ⟨rfl, by simp [initEntry], by simp [initEntry]⟩
  · exact key.2 e he

/-- Parameters identical to `pA` but with reorder point `s = 0`. -/
def pZ : Params :=
  { pA with s := 0 }

/-- C7 witness: a concrete run with `s = 0` never places or receives an
order. -/
theorem no_reorder_when_s_zero_witness :
    pZ.s = 0 ∧ 0 ≤ pZ.S ∧
      ∀ e ∈ (runEngine pZ lgK usK poiK 3 []).1,
        e.inTransit = 0 ∧ e.kind ≠ EventKind.purchaseReorder ∧
          e.kind ≠ EventKind.orderArrival :=
  ⟨rfl, by decide,
   no_reorder_when_s_zero pZ lgK usK poiK 3 rfl (by decide)⟩

/-- C8 counterexample: a single customer-arrival event that both causes a
stockout (demand `5` against on-hand `2`, so `lost = 3 > 0`) and triggers a
reorder (`y` goes from `0` to `5`) is logged with the single label
`'缺货损失'` (stockout); its event kind is NOT the reorder-trigger label, so
the entry does not record both facts in its classification — refuting the
claim that both facts are recorded rather than only one label. -/
theorem stockout_reorder_single_label_counterexample :
    stepCore pB lgK usK poiD cD0 = some (cD1, eD1) ∧
      eD1.note = some (5, 2, 3) ∧ cD0.y = 0 ∧ cD1.y = 5 ∧
      eD1.kind = EventKind.stockout ∧ eD1.kind ≠ EventKind.purchaseReorder := by
  refine ⟨?_, by decide, by decide, by decide, by decide, by decide⟩
  norm_num [stepCore, customerStep, cD0, cD1, eD1, pB, lgK, usK, poiD,
    generateNextArrival, generateDemandSize, ETime.emin, ETime.leT,
    ETime.le, ETime.add]

/-- C8 amended: when a single customer-arrival event both causes a stockout
(`lost > 0`, witnessed by a present annotation) and triggers a reorder
(`y` changes from `0` to nonzero), the appended entry carries the stockout
label ONLY — the reorder trigger is not recorded in the event-kind label and
is observable only through the entry's in-transit column (which equals the
just-placed order quantity). -/
theorem stockout_label_priority (p : Params) (lg : ℚ → ℚ) (us : ℕ → ℚ)
    (poi : ℕ → ℕ) (c c1 : Core) (e : Entry)
    (hstep : stepCore p lg us poi c = some (c1, e))
    (hnote : e.note ≠ none) (hy0 : c.y = 0) (hy1 : c1.y ≠ 0) :
    e.kind = EventKind.stockout ∧ e.kind ≠ EventKind.purchaseReorder ∧
      e.inTransit = c1.y := by
  rcases stepCore_eq_cases hstep with ⟨tc, _, hcs⟩ | ⟨tb, _, hos⟩
  · have hc1 : c1 = (customerStep p lg us poi c tc).1 := by rw [hcs]
    have he : e = (customerStep p lg us poi c tc).2 := by rw [hcs]
    rw [hc1] at hy1
    rw [he] at hnote
    rw [he, hc1]
    simp only [customerStep] at hnote hy1 ⊢
    split_ifs at hnote hy1 ⊢ with h1 h2 <;>
      first
        | exact absurd hy0 hy1
        | exact absurd rfl hnote
        | exact ⟨by first | rfl | trivial, by decide, by first | rfl | trivial⟩
  · have he : e = (orderStep p c tb).2 := by rw [hos]
    rw [he] at hnote
    simp [orderStep] at hnote

/-- C8 amended witness: at the concrete simultaneous stockout-and-reorder
event `cD0`, the entry is labelled stockout only. -/
theorem stockout_label_priority_witness :
    eD1.kind = EventKind.stockout ∧ eD1.kind ≠ EventKind.purchaseReorder ∧
      eD1.inTransit = cD1.y :=
  stockout_label_priority pB lgK usK poiD cD0 cD1 eD1
    (by norm_num [stepCore, customerStep, cD0, cD1, eD1, pB, lgK, usK, poiD,
      generateNextArrival, generateDemandSize, ETime.emin, ETime.leT,
      ETime.le, ETime.add])
    (by simp [eD1]) (by norm_num [cD0]) (by norm_num [cD1])

/-- C9 counterexample: `np.random.uniform(0, 1)` samples the half-open
interval `[0, 1)`, so a draw of exactly `0` is possible; the generator does
not retry it but maps it to an infinite interarrival time — refuting the
claim that the uniform variate always lies in the open interval `(0, 1)`
with a zero draw handled as a retry. -/
theorem uniform_zero_draw_counterexample :
    (0 : ℚ) ≤ 0 ∧ (0 : ℚ) < 1 ∧ generateNextArrival 1 lgK 0 = ETime.inf := by
  refine ⟨le_refl 0, by norm_num, ?_⟩
  simp [generateNextArrival]

/-- C9 amended: there is no retry guard for a degenerate uniform draw: when
the first uniform draw is exactly `0`, `_generate_next_arrival` returns an
infinite interarrival, so `t_C = inf` and the loop exits immediately — the
run does not fail, logs only the initialization entry, records no revenue or
ordering cost, and accrues holding cost `h * S * T` over the whole horizon. -/
theorem zero_draw_no_retry (p : Params) (lg : ℚ → ℚ) (us : ℕ → ℚ)
    (poi : ℕ → ℕ) (fuel : ℕ) (h0 : us 0 = 0) :
    generateNextArrival p.lam lg (us 0) = ETime.inf ∧
      (runEngine p lg us poi fuel []).1 = [initEntry p] ∧
      (runEngine p lg us poi fuel []).2.total_revenue = 0 ∧
      (runEngine p lg us poi fuel []).2.total_ordering_cost = 0 ∧
      (runEngine p lg us poi fuel []).2.total_holding_cost =
        p.h * (p.S : ℚ) * p.T := by
  have hgen : generateNextArrival p.lam lg (us 0) = ETime.inf := by
    rw [h0]
    simp [generateNextArrival]
  have hstuck : stepCore p lg us poi (initCore p lg us) = none := by
    unfold stepCore
    rw [show (initCore p lg us).tC = ETime.inf by simp [initCore, hgen],
      show (initCore p lg us).tO = ETime.inf from rfl]
    simp [ETime.emin, ETime.leT]
  have hloop : loopAux p lg us poi fuel (initCore p lg us) [] =
      (initCore p lg us, []) := loopAux_stuck hstuck fuel []
  refine ⟨hgen, ?_, ?_, ?_, ?_⟩
  · simp only [runEngine, hloop]
    simp
  · simp only [runEngine, hloop]
    simp [initCore]
  · simp only [runEngine, hloop]
    simp [initCore]
  · simp only [runEngine, hloop]
    simp [initCore]

/-- C9 amended witness: a concrete run whose first uniform draw is `0`. -/
theorem zero_draw_no_retry_witness :
    generateNextArrival pA.lam lgK (usZ 0) = ETime.inf ∧
      (runEngine pA lgK usZ poiK 2 []).1 = [initEntry pA] ∧
      (runEngine pA lgK usZ poiK 2 []).2.total_revenue = 0 ∧
      (runEngine pA lgK usZ poiK 2 []).2.total_ordering_cost = 0 ∧
      (runEngine pA lgK usZ poiK 2 []).2.total_holding_cost =
        pA.h * (pA.S : ℚ) * pA.T :=
  zero_draw_no_retry pA lgK usZ poiK 2 rfl
